import Mathlib

/-!
Verification of the yield-caching and ABCD model-assembly engine of the
`ra4_stats` repository.  The definitions below are a shallow embedding of
the C++ sources (`src/yield_manager.cpp`, `src/workspace_generator.cpp`,
`src/systematic.cpp`, `inc/bin.hpp`, `inc/cut.hpp`).  Floating-point
`double` values are embedded as `ℚ`; selection expressions (`Cut`) are
embedded as strings, mirroring the string-based C++ implementation.
Components of the repository whose implementation files are not present
(GammaParams, Process, BlockYields, FreeSystematic, the bodies of
`bin.cpp`/`cut.cpp`/`utilities.cpp`) are modelled from the specification
and are marked as such in their doc comments.
-/

namespace RA4

/-- Modelled from the spec: `GammaParams` (its implementation file is not
present in the sources).  A weighted-Poisson yield accumulator holding an
effective event count `nEff` and a per-event weight `weight`
(spec §3, §4.1). -/
structure GammaParams where
  nEff : ℚ
  weight : ℚ
deriving DecidableEq, Repr

namespace GammaParams

/-- Derived total yield `N*w` (spec §4.1: `Yield()` is a pure derived
function). -/
def Yield (g : GammaParams) : ℚ := g.nEff * g.weight

/-- The `SetNEffectiveAndWeight(N, w)` replaces both fields (spec §4.1). -/
def setNEffectiveAndWeight (_g : GammaParams) (n w : ℚ) : GammaParams :=
  ⟨n, w⟩

/-- Modelled from the spec: `operator+=` combines two independent Poisson
estimates.  If the weights agree the effective counts add; otherwise the
combined pair is `N = (N1*w1+N2*w2)^2 / (N1*w1^2+N2*w2^2)` when the
denominator is positive (else 0) and `w = yield/N` (spec §4.1). -/
def add (a b : GammaParams) : GammaParams :=
  if a.weight = b.weight then ⟨a.nEff + b.nEff, a.weight⟩
  else
    let denom := a.nEff * a.weight ^ 2 + b.nEff * b.weight ^ 2
    let n := if 0 < denom then (a.Yield + b.Yield) ^ 2 / denom else 0
    ⟨n, (a.Yield + b.Yield) / n⟩

/-- Scalar multiplication `factor * gp` rescales the weight only, leaving
the effective count unchanged (spec §4.1). -/
def scale (f : ℚ) (g : GammaParams) : GammaParams :=
  ⟨g.nEff, f * g.weight⟩

end GammaParams

/-- A named multiplicative nuisance with a strength
(`src/systematic.cpp`). -/
structure Systematic where
  name : String
  strength : ℚ
deriving DecidableEq, Repr

/-- A named selection region with attached systematics and a blind flag.
`name`, `cut` and `systematics` are the fields of `inc/bin.hpp`; the
blind flag is modelled from the spec (§3: "blind flag"), since the header
shipped with the sources predates it while `workspace_generator.cpp`
calls `bin.Blind()`. -/
structure Bin where
  name : String
  cut : String
  systematics : List Systematic
  blind : Bool
deriving DecidableEq, Repr

/-- Modelled from the spec: `Bin::AddSystematic` (the implementation file
`bin.cpp` is not present).  Spec §3: the systematics set is keyed by
systematic name — adding a systematic with a name already present must
update, not duplicate. -/
def Bin.addSystematic (b : Bin) (s : Systematic) : Bin :=
  if b.systematics.any (fun t => t.name = s.name) then
    { b with systematics :=
        b.systematics.map (fun t => if t.name = s.name then s else t) }
  else
    { b with systematics := b.systematics ++ [s] }

/-- Modelled from the spec: the `Process` interface (§3, §6) — a named
data source exposing `IsData()`, a process-level `Cut()`, the
`CountZeros()` policy, a raw entry count `GetEntries()` and the
selection-qualified weighted-yield query `GetYield(Cut)`. -/
structure Process where
  name : String
  isData : Bool
  cut : String
  countZeros : Bool
  entries : ℕ
  systematics : List Systematic
  getYield : String → GammaParams

/-- The composite yield-cache key `(Bin, Process, Cut)` (spec §3;
`YieldKey` as used throughout `yield_manager.cpp`). -/
structure YieldKey where
  bin : Bin
  process : Process
  cut : String

/-- Three-way comparison on a linear order, used to embed the
lexicographic `std::tuple` comparisons of the C++ sources. -/
def cmpO {α : Type} [LinearOrder α] (a b : α) : Ordering :=
  if a < b then .lt else if a = b then .eq else .gt

/-- Lexicographic three-way comparison of lists (the `std::vector`
comparison used by `Bin`'s systematics collection). -/
def cmpList {α : Type} (c : α → α → Ordering) : List α → List α → Ordering
  | [], [] => .eq
  | [], _ :: _ => .lt
  | _ :: _, [] => .gt
  | a :: as, b :: bs => (c a b).then (cmpList c as bs)

/-- The `Systematic::operator<` compares the comparison tuple
`(name, strength)` (`src/systematic.cpp`; tuple contents modelled from
spec §3: "(name, strength) scalar nuisance"). -/
def Systematic.cmp (a b : Systematic) : Ordering :=
  (cmpO a.name b.name).then (cmpO a.strength b.strength)

/-- The `Bin::operator<` compares the comparison tuple `(cut_, systematics_)`
declared in `inc/bin.hpp` (lines 31–39); the one-line body comparing the
tuples lexicographically is modelled from the spec (§3: "Comparison/
ordering by (cut, systematics)"), `bin.cpp` being absent. -/
def Bin.cmp (a b : Bin) : Ordering :=
  (cmpO a.cut b.cut).then (cmpList Systematic.cmp a.systematics b.systematics)

/-- The `Bin::operator<` itself. -/
def Bin.lt (a b : Bin) : Bool := Bin.cmp a b = .lt

/-- Modelled from the spec: `Process` ordering is structural by name
(§3: a Process is a *named* data source; §3: YieldKey ordering is
"purely structural"). -/
def Process.cmp (a b : Process) : Ordering := cmpO a.name b.name

/-- The `YieldKey` ordering: lexicographic on `(Bin, Process, Cut)`
(spec §3: "equality/ordering purely structural"). -/
def YieldKey.cmp (a b : YieldKey) : Ordering :=
  (Bin.cmp a.bin b.bin).then
    ((Process.cmp a.process b.process).then (cmpO a.cut b.cut))

/-- Two keys are equivalent for the `std::map` exactly when neither
compares less than the other. -/
def keyEquiv (a b : YieldKey) : Bool := YieldKey.cmp a b = .eq

/-- The backing store of the process-wide yield cache
(`YieldManager::yields_`, `yield_manager.cpp` line 14). -/
abbrev Cache : Type := List (YieldKey × GammaParams)

/-- The `std::map::find` on the cache: the entry whose key is equivalent to
the requested one. -/
def cacheLookup (c : Cache) (k : YieldKey) : Option GammaParams :=
  (List.find? (fun e => keyEquiv e.1 k) c).map (·.2)

/-- The `std::map::operator[]` assignment `yields_[key] = v`: overwrite the
equivalent entry if present, otherwise insert. -/
def cacheInsert (c : Cache) (k : YieldKey) (v : GammaParams) : Cache :=
  if (List.find? (fun e => keyEquiv e.1 k) c).isSome then
    List.map (fun e => if keyEquiv e.1 k then (e.1, v) else e) c
  else c ++ [(k, v)]

/-! ### Selection expressions (`Cut`)

`inc/cut.hpp` declares `Cut` as a wrapper around a selection-expression
string; the implementation file is absent, so the composition operators
are modelled from the spec (§3: "composition operators must produce a new
Cut that is semantically the logical/arithmetic combination of operands";
§9: substitution is raw text replace). -/

/-- The identity cut `Cut()` = `"1"` (always true; `inc/cut.hpp` default
argument). -/
def cutOne : String := "1"

/-- Modelled from the spec: `operator&&` on cuts. -/
def cutAnd (a b : String) : String := "(" ++ a ++ ")&&(" ++ b ++ ")"

/-- Modelled from the spec: `operator*` on cuts. -/
def cutMul (a b : String) : String := "(" ++ a ++ ")*(" ++ b ++ ")"

/-- The `Contains(str, pat)` from `utilities.hpp` (implementation absent;
modelled as substring containment, its evident meaning at every call
site). -/
def strContains (s pat : String) : Bool := decide (pat.data <:+: s.data)

/-- Fuel-bounded core of `ReplaceAll`: replace every non-overlapping
occurrence of `pat`, left to right.  One character is consumed per fuel
unit, so `l.length` fuel always suffices. -/
def replaceAux (pat rep : List Char) : ℕ → List Char → List Char
  | 0, l => l
  | fuel + 1, l =>
    match l with
    | [] => []
    | a :: rest =>
      if pat.isPrefixOf l ∧ pat ≠ [] then
        rep ++ replaceAux pat rep fuel (l.drop pat.length)
      else a :: replaceAux pat rep fuel rest

/-- The `ReplaceAll(str, orig, rep)` from `utilities.hpp` (implementation
absent; modelled from the spec §9: raw text search-and-replace of every
occurrence). -/
def replaceAll (s pat rep : String) : String :=
  ⟨replaceAux pat.data rep.data s.data.length s.data⟩

/-- Split a character list at every delimiter, keeping empty pieces. -/
def splitAux (p : Char → Bool) : List Char → List Char → List (List Char)
  | [], acc => [acc.reverse]
  | c :: rest, acc =>
    if p c then acc.reverse :: splitAux p rest []
    else splitAux p rest (c :: acc)

/-- String splitting on a delimiter predicate. -/
def splitStr (p : Char → Bool) (s : String) : List String :=
  (splitAux p s.data []).map (fun cs => ⟨cs⟩)

/-! ### YieldManager (`src/yield_manager.cpp`) -/

/-- The fixed reference luminosity of the shared cache
(`YieldManager::store_lumi_ = 4.`, line 15). -/
def storeLumi : ℚ := 4

/-- The luminosity weight prefix: trivial for real data, otherwise
`<lumi>*weight*eff_trig/w_btag` (lines 70–73; the two branches of the
inner conditional are textually identical). -/
def lumiWeight (lumi : ℚ) (p : Process) : String :=
  if p.isData then cutOne else toString lumi ++ "*weight*eff_trig/w_btag"

/-- The five-level fallback cut ladder (lines 75–80):
full selection, drop the bin cut, drop the baseline cut, luminosity
weight only, no cut at all. -/
def ladderCuts (lumi : ℚ) (p : Process) (bin : Bin) (cut : String) :
    List String :=
  [ cutMul (lumiWeight lumi p) (cutAnd (cutAnd cut bin.cut) p.cut)
  , cutMul (lumiWeight lumi p) (cutAnd cut p.cut)
  , cutMul (lumiWeight lumi p) p.cut
  , lumiWeight lumi p
  , cutOne ]

/-- The `met → met_tru` substitution protecting `met_calo`
(lines 95–98). -/
def mettruCut (c : String) : String :=
  replaceAll (replaceAll (replaceAll c "met_calo" "XXXYYYZZZ_calo") "met"
    "met_tru") "XXXYYYZZZ_calo" "met_calo"

/-- One dataset query at a given cut level, including the signal
special case (lines 91–105): a process whose name contains `"sig"` is
queried a second time with `met` replaced by `met_tru` and the two
results are averaged (added, then scaled by one half).  Returns the
resulting `GammaParams` together with the list of cuts actually sent to
the dataset layer. -/
def levelQuery (p : Process) (c : String) : GammaParams × List String :=
  let temp := p.getYield c
  if strContains p.name "sig" then
    let c2 := mettruCut c
    ((temp.add (p.getYield c2)).scale (1/2), [c, c2])
  else (temp, [c])

/-- The fallback loop of `ComputeYield` (lines 82–108): while the
accumulated weight is nonpositive, attempt the next cut level; from the
second level on, a process with `CountZeros()==false` aborts with an
accepted zero; the first level keeps the queried `GammaParams` whole,
later levels force the effective count to zero and retain only the
queried weight. -/
def ladderGo (p : Process) : List String → ℕ → GammaParams →
    GammaParams × List String
  | [], _, gps => (gps, [])
  | c :: rest, icut, gps =>
    if gps.weight ≤ 0 then
      if 0 < icut ∧ p.countZeros = false then (⟨0, 0⟩, [])
      else
        let q := levelQuery p c
        let gps2 := if icut = 0 then q.1 else gps.setNEffectiveAndWeight 0 q.1.weight
        let r := ladderGo p rest (icut + 1) gps2
        (r.1, q.2 ++ r.2)
    else (gps, [])

/-- The uncached computation of `ComputeYield` before luminosity
rescaling (lines 61–108): a process with no entries yields a well-formed
zero, otherwise the fallback ladder runs from a default-initialized
accumulator. -/
def computeYieldRaw (lumi : ℚ) (bin : Bin) (p : Process) (cut : String) :
    GammaParams × List String :=
  if p.entries = 0 then (⟨0, 0⟩, [])
  else ladderGo p (ladderCuts lumi p bin cut) 0 ⟨0, 0⟩

/-- The rescaling factor applied by `GetYield` when returning a cached
value (lines 25–26): `local_lumi/store_lumi`, except data which is never
rescaled. -/
def getFactor (lumi : ℚ) (p : Process) : ℚ :=
  if p.isData then 1 else lumi / storeLumi

/-- The rescaling factor applied by `ComputeYield` when storing into the
cache (lines 114–115): `store_lumi/local_lumi`, except data. -/
def storeFactor (lumi : ℚ) (p : Process) : ℚ :=
  if p.isData then 1 else storeLumi / lumi

/-- The `YieldManager::ComputeYield` (lines 49–117): an already-cached key is
re-read through `GetYield`, a key with no entries yields zero, otherwise
the fallback ladder runs; the result is stored into the shared cache
rescaled by `storeFactor`.  The second component lists the cuts queried
against the dataset layer. -/
def computeYield (lumi : ℚ) (k : YieldKey) (cache : Cache) :
    Cache × List String :=
  let r :=
    match cacheLookup cache k with
    | some v => (GammaParams.scale (getFactor lumi k.process) v, [])
    | none => computeYieldRaw lumi k.bin k.process k.cut
  (cacheInsert cache k (GammaParams.scale (storeFactor lumi k.process) r.1), r.2)

/-- The `YieldManager::GetYield` (lines 22–29): compute the key if it is not
cached yet, then return the cached value rescaled by `getFactor`. -/
def getYield (lumi : ℚ) (k : YieldKey) (cache : Cache) :
    GammaParams × Cache × List String :=
  let s :=
    if (cacheLookup cache k).isSome then (cache, [])
    else computeYield lumi k cache
  (GammaParams.scale (getFactor lumi k.process) ((cacheLookup s.1 k).getD ⟨0, 0⟩),
    s.1, s.2)

/-! Statement-side views of the ladder, used to phrase the theorems. -/

/-- The `GammaParams` weight obtained by querying each of the five cut
levels. -/
def levelWeights (lumi : ℚ) (bin : Bin) (p : Process) (cut : String) :
    List ℚ :=
  (ladderCuts lumi p bin cut).map (fun c => (levelQuery p c).1.weight)

/-- The dataset queries issued at each of the five cut levels. -/
def levelTraces (lumi : ℚ) (bin : Bin) (p : Process) (cut : String) :
    List (List String) :=
  (ladderCuts lumi p bin cut).map (fun c => (levelQuery p c).2)

/-- The index of the cut level whose result the fallback loop accepts,
assuming the first level returned a nonpositive weight: level 0 itself if
the process does not retry (`CountZeros()==false`), otherwise the first
level with positive weight, capped at the last level. -/
def stopLevel (lumi : ℚ) (bin : Bin) (p : Process) (cut : String) : ℕ :=
  if p.countZeros then
    min ((levelWeights lumi bin p cut).findIdx (fun w => decide (0 < w))) 4
  else 0

/-! ### WorkspaceGenerator — dilepton-closure systematic
(`src/workspace_generator.cpp` lines 312–389) -/

/-- The `WorkspaceGenerator::NeedsDileptonBin` (lines 349–364): the bin's cut
must contain a transverse-mass cut and either the bin's cut or the
baseline must contain a single-lepton requirement. -/
def needsDileptonBin (baseline : String) (bin : Bin) : Bool :=
  strContains bin.cut "mt>" &&
    (strContains bin.cut "(nels+nmus)==1" || strContains bin.cut "(nmus+nels)==1" ||
     strContains bin.cut "nels+nmus==1" || strContains bin.cut "nmus+nels==1" ||
     strContains bin.cut "nleps==1" ||
     strContains baseline "(nels+nmus)==1" || strContains baseline "(nmus+nels)==1" ||
     strContains baseline "nels+nmus==1" || strContains baseline "nmus+nels==1" ||
     strContains baseline "nleps==1")

/-- The five `Cut::Replace` substitutions of `MakeDileptonBin`
(lines 373–377 and 381–385): lepton multiplicity 1 → 2. -/
def dilepReplace (s : String) : String :=
  replaceAll (replaceAll (replaceAll (replaceAll (replaceAll s
    "(nels+nmus)==1" "(nels+nmus)==2")
    "(nmus+nels)==1" "(nmus+nels)==2")
    "nels+nmus==1" "nels+nmus==2")
    "nmus+nels==1" "nmus+nels==2")
    "nleps==1" "nleps==2"

/-- The `WorkspaceGenerator::MakeDileptonBin` (lines 366–389): rename the bin,
substitute the lepton multiplicity, and rewrite the b-tag, missing-energy
and transverse-mass cuts via `Cut::RmCutOn`.  `Cut::RmCutOn`'s
implementation is absent from the sources, so it is passed in as a
parameter `rmCutOn var replacement s`. -/
def makeDileptonBin (rmCutOn : String → String → String → String)
    (baseline : String) (bin : Bin) : Bin × String :=
  let transform := fun s =>
    rmCutOn "mt" cutOne
      (rmCutOn "met" "met>200&&met<=400"
        (rmCutOn "nbm" "nbm>=1&&nbm<=2" (dilepReplace s)))
  ({ bin with name := "dilep_" ++ bin.name, cut := transform bin.cut },
    transform baseline)

/-- The per-bin body of `WorkspaceGenerator::AddDileptonSystematic`
(lines 318–342): for a qualifying bin, build the dilepton bin, take its
yield from the backgrounds when blinded and from data otherwise, and
attach a systematic `dilep_<bin>` with strength `1/sqrt(yield)` when the
yield exceeds 1 and `1` otherwise.  The dataset access
`WorkspaceGenerator::GetYield` and the C library `sqrt` are passed in as
parameters `getY` and `sqrtQ`. -/
def addDileptonSystematicBin (sqrtQ : ℚ → ℚ)
    (rmCutOn : String → String → String → String)
    (getY : Bin → Process → String → GammaParams)
    (backgrounds : List Process) (data : Process)
    (baseline : String) (bin : Bin) : Bin :=
  if needsDileptonBin baseline bin then
    let db := makeDileptonBin rmCutOn baseline bin
    let gp :=
      if db.1.blind then
        backgrounds.foldl (fun acc bkg => acc.add (getY db.1 bkg db.2)) ⟨0, 0⟩
      else getY db.1 data db.2
    let strength := if 1 < gp.Yield then 1 / sqrtQ gp.Yield else 1
    bin.addSystematic ⟨"dilep_" ++ bin.name, strength⟩
  else bin

/-! ### WorkspaceGenerator — systematics configuration file
(`src/workspace_generator.cpp` lines 225–310) -/

/-- Modelled from the spec: `FreeSystematic` (implementation file absent;
§3: a name plus a mapping from (Bin, Process) pairs to individual
strengths, keyed with the same structural ordering as the yield
cache). -/
structure FreeSystematic where
  name : String
  entries : List ((Bin × Process) × ℚ)

/-- Whether the strength table has an entry for this (bin, process)
pair. -/
def FreeSystematic.hasEntry (f : FreeSystematic) (b : Bin) (p : Process) :
    Bool :=
  f.entries.any (fun e =>
    Bin.cmp e.1.1 b = Ordering.eq && Process.cmp e.1.2 p = Ordering.eq)

/-- Modelled from the spec: `FreeSystematic::Strength(bin, prc) = v`
(mutable-reference assignment): update the entry for the pair, inserting
it when absent. -/
def FreeSystematic.setStrength (f : FreeSystematic) (b : Bin) (p : Process)
    (v : ℚ) : FreeSystematic :=
  if f.entries.any (fun e =>
      Bin.cmp e.1.1 b = Ordering.eq && Process.cmp e.1.2 p = Ordering.eq) then
    { f with entries := f.entries.map (fun e =>
        if Bin.cmp e.1.1 b = Ordering.eq && Process.cmp e.1.2 p = Ordering.eq
        then (e.1, v) else e) }
  else { f with entries := f.entries ++ [((b, p), v)] }

/-- Bounded iteration of `ReplaceAll(line, "  ", " ")` until a fixed
point, as in the do-while of `CleanLine`; each productive pass shortens
the string, so `s.length` passes always reach the fixed point. -/
def collapseSpacesAux : ℕ → String → String
  | 0, s => s
  | fuel + 1, s =>
    let t := replaceAll s "  " " "
    if t = s then s else collapseSpacesAux fuel t

/-- The space-collapsing do-while loop of `CleanLine` (lines 300–303). -/
def collapseSpaces (s : String) : String := collapseSpacesAux s.length s

/-- The `WorkspaceGenerator::CleanLine` (lines 297–310): drop `=` characters,
collapse runs of spaces, strip leading spaces, and blank out comment
lines starting with `#`. -/
def cleanLine (line : String) : String :=
  let l : String :=
    ⟨(collapseSpaces (replaceAll line "=" "")).data.dropWhile
      (fun c => c = ' ')⟩
  if ['#'].isPrefixOf l.data then "" else l

/-- Modelled from the spec: `Tokenize` with default delimiters
(`utilities.cpp` absent; §6: a whitespace-collapsing format of
whitespace-separated words). -/
def tokenize (s : String) : List String :=
  (splitStr (fun c => c == ' ' || c == '\t') s).filter (fun w => w ≠ "")

/-- Modelled from the spec: `Tokenize(word, ", ")` used for the
`PROCESSES` line: split on commas and spaces. -/
def tokenizeComma (s : String) : List String :=
  (splitStr (fun c => c == ',' || c == ' ') s).filter (fun w => w ≠ "")

/-- Space/tab removal applied to the bin-name word of an entry line
(lines 280–282). -/
def stripSpaceTab (s : String) : String :=
  replaceAll (replaceAll s " " "") "\t" ""

/-- All bins of all blocks in iteration order (lines 277–279). -/
def allBins (blocks : List (List (List Bin))) : List Bin :=
  blocks.flatMap (fun blk => blk.flatten)

/-- The `PROCESSES` line handler (lines 264–275): words after the
keyword are re-tokenized on commas/spaces and matched by name against
all backgrounds plus the signal. -/
def procMatches (allPrc : List Process) (ws : List String) : List Process :=
  ws.flatMap (fun w =>
    (tokenizeComma w).flatMap (fun nm =>
      allPrc.filter (fun prc => nm = prc.name)))

/-- The entry-line handler (lines 276–290): for every bin of every block
whose name equals the cleaned first word, assign the parsed strength for
every currently selected process. -/
def applyEntry (blocks : List (List (List Bin))) (atofQ : String → ℚ)
    (processList : List Process) (current : FreeSystematic)
    (line : List String) : FreeSystematic :=
  (allBins blocks).foldl
    (fun cur bin =>
      if stripSpaceTab (line.getD 0 "") = bin.name then
        processList.foldl
          (fun c prc => c.setStrength bin prc (atofQ (line.getD 1 "")))
          cur
      else cur)
    current

/-- The mutable loop state of `ReadSystematicsFile` (lines 243–251). -/
structure SystState where
  processList : List Process
  current : FreeSystematic
  ready : Bool
  acc : List FreeSystematic

/-- The main loop of `ReadSystematicsFile` (lines 252–295): a line with
fewer than two words is a fatal error; a `SYSTEMATIC` header pushes the
previous systematic (when one is in flight) and starts a new one; a
`PROCESSES` line replaces the process selection; any other line is a
`<bin> <strength>` entry. -/
def readSystLoop (blocks : List (List (List Bin))) (allPrc : List Process)
    (atofQ : String → ℚ) :
    List (List String) → SystState → Except String (List FreeSystematic)
  | [], st => .ok (if st.ready then st.acc ++ [st.current] else st.acc)
  | line :: rest, st =>
    if line.length < 2 then
      .error ("Bad systematics line: " ++ String.join line)
    else if line.getD 0 "" = "SYSTEMATIC" then
      readSystLoop blocks allPrc atofQ rest
        { processList := st.processList,
          current := ⟨line.getD 1 "", []⟩,
          ready := true,
          acc := if st.ready then st.acc ++ [st.current] else st.acc }
    else if line.getD 0 "" = "PROCESSES" then
      readSystLoop blocks allPrc atofQ rest
        { st with processList := procMatches allPrc (line.drop 1) }
    else
      readSystLoop blocks allPrc atofQ rest
        { st with current := applyEntry blocks atofQ st.processList st.current line }

/-- The cleaned, tokenized lines of the configuration file
(lines 227–241). -/
def systWords (fileLines : List String) : List (List String) :=
  ((fileLines.map cleanLine).filter (fun l => l ≠ "")).map tokenize

/-- The `WorkspaceGenerator::ReadSystematicsFile` (lines 225–295) given the
lines of the configuration file.  `atof` is external and passed in as
`atofQ`.  The process selection starts out as a *cleared copy* of all
backgrounds plus the signal (lines 243–247), i.e. empty. -/
def readSystematicsFile (blocks : List (List (List Bin)))
    (backgrounds : List Process) (signal : Process) (atofQ : String → ℚ)
    (fileLines : List String) : Except String (List FreeSystematic) :=
  readSystLoop blocks (backgrounds ++ [signal]) atofQ (systWords fileLines)
    ⟨[], ⟨"BADBADBADBADBADBADBADBADBAD", []⟩, false, []⟩

/-! ### WorkspaceGenerator — ABCD parameters and raw background rates
(`src/workspace_generator.cpp` lines 511–612) -/

/-- The summed background `GammaParams` of one bin (spec §4.3): the
yields of all background processes under the baseline cut, accumulated
with `GammaParams::operator+=`. -/
def binBkgYield (getY : Bin → Process → String → GammaParams)
    (backgrounds : List Process) (baseline : String) (bin : Bin) :
    GammaParams :=
  backgrounds.foldl (fun acc bkg => acc.add (getY bin bkg baseline)) ⟨0, 0⟩

/-- Modelled from the spec: `BlockYields::RowSums` (implementation file
absent; §4.3: per-row sums of background `GammaParams`). -/
def rowSums (getY : Bin → Process → String → GammaParams)
    (backgrounds : List Process) (baseline : String)
    (grid : List (List Bin)) : List GammaParams :=
  grid.map (fun row =>
    row.foldl (fun acc b => acc.add (binBkgYield getY backgrounds baseline b))
      ⟨0, 0⟩)

/-- Modelled from the spec: `BlockYields::ColSums` (per-column sums over
the rectangular grid). -/
def colSums (getY : Bin → Process → String → GammaParams)
    (backgrounds : List Process) (baseline : String)
    (grid : List (List Bin)) : List GammaParams :=
  (List.range (grid.headD []).length).map (fun j =>
    grid.foldl (fun acc row =>
      match row[j]? with
      | some b => acc.add (binBkgYield getY backgrounds baseline b)
      | none => acc) ⟨0, 0⟩)

/-- The index of the first entry attaining the maximum of a list of
rationals. -/
def maxIdx (l : List ℚ) : ℕ :=
  l.findIdx (fun x => l.all (fun y => decide (y ≤ x)))

/-- Modelled from the spec: `BlockYields::MaxRow` (§4.3: the index of the
row with the largest summed yield). -/
def maxRow (getY : Bin → Process → String → GammaParams)
    (backgrounds : List Process) (baseline : String)
    (grid : List (List Bin)) : ℕ :=
  maxIdx ((rowSums getY backgrounds baseline grid).map GammaParams.Yield)

/-- Modelled from the spec: `BlockYields::MaxCol`. -/
def maxCol (getY : Bin → Process → String → GammaParams)
    (backgrounds : List Process) (baseline : String)
    (grid : List (List Bin)) : ℕ :=
  maxIdx ((colSums getY backgrounds baseline grid).map GammaParams.Yield)

/-- One factor of the `prod::rate_...` factory string emitted by
`AddRawBackgroundPredictions`, as a typed tag. -/
inductive RateFactor where
  | rscale : RateFactor
  | rx : ℕ → ℕ → RateFactor
  | ry : ℕ → ℕ → RateFactor
  | frac : String → String → RateFactor
  | syst : String → RateFactor
deriving DecidableEq, Repr

/-- The factor list of the raw background rate declared for the bin at
`(irow, icol)` and background `bkg`
(`AddRawBackgroundPredictions`, lines 570–601): the overall scale, a
column ratio exactly when the column is not the reference column, a row
ratio exactly when the row is not the reference row, the background
fraction, and the systematic multipliers when systematics are
enabled. -/
def rateFactors (doSyst : Bool) (freeSysts : List FreeSystematic)
    (mrow mcol irow icol : ℕ) (bin : Bin) (bkg : Process) :
    List RateFactor :=
  [RateFactor.rscale]
  ++ (if icol ≠ mcol then [RateFactor.rx (icol + 1) (mcol + 1)] else [])
  ++ (if irow ≠ mrow then [RateFactor.ry (irow + 1) (mrow + 1)] else [])
  ++ [RateFactor.frac bin.name bkg.name]
  ++ (if doSyst then
        bkg.systematics.map (fun s => RateFactor.syst s.name)
        ++ ((freeSysts.filter (fun s => s.hasEntry bin bkg)).map
              (fun s => RateFactor.syst s.name))
      else [])

/-- Whether a factor is a column ratio. -/
def isRxFactor : RateFactor → Bool
  | .rx _ _ => true
  | _ => false

/-- Whether a factor is a row ratio. -/
def isRyFactor : RateFactor → Bool
  | .ry _ _ => true
  | _ => false

/-- Whether a factor list contains a column-ratio factor. -/
def hasRxFactor (fs : List RateFactor) : Bool := fs.any isRxFactor

/-- Whether a factor list contains a row-ratio factor. -/
def hasRyFactor (fs : List RateFactor) : Bool := fs.any isRyFactor

/-! ### WorkspaceGenerator — setters and lazy rebuild
(`src/workspace_generator.cpp` lines 27–215) -/

/-- The workspace-validity-relevant state of a `WorkspaceGenerator`
(constructor, lines 27–56), with an abstract counter of full rebuilds
standing for the workspace contents. -/
structure WGState where
  luminosity : ℚ
  doSystematics : Bool
  doDilepton : Bool
  doMcKappaCorrection : Bool
  toyNum : ℕ
  wIsValid : Bool
  rebuildCount : ℕ
deriving DecidableEq, Repr

/-- The constructor's initialization (lines 48–54). -/
def mkWGState : WGState := ⟨4, true, true, true, 0, false, 0⟩

/-- The `SetLuminosity` (lines 79–85). -/
def setLuminosity (g : WGState) (l : ℚ) : WGState :=
  if l ≠ g.luminosity then { g with luminosity := l, wIsValid := false } else g

/-- The `SetDoSystematics` (lines 91–97). -/
def setDoSystematics (g : WGState) (b : Bool) : WGState :=
  if b ≠ g.doSystematics then { g with doSystematics := b, wIsValid := false }
  else g

/-- The `SetDoDilepton` (lines 103–109). -/
def setDoDilepton (g : WGState) (b : Bool) : WGState :=
  if b ≠ g.doDilepton then { g with doDilepton := b, wIsValid := false } else g

/-- The `SetKappaCorrected` (lines 124–130). -/
def setKappaCorrected (g : WGState) (b : Bool) : WGState :=
  if g.doMcKappaCorrection ≠ b then
    { g with doMcKappaCorrection := b, wIsValid := false }
  else g

/-- The `SetToyNum` (lines 136–142). -/
def setToyNum (g : WGState) (n : ℕ) : WGState :=
  if g.toyNum ≠ n then { g with toyNum := n, wIsValid := false } else g

/-- The `UpdateWorkspace` (lines 174–215): a full rebuild, after which the
workspace is valid. -/
def updateWorkspace (g : WGState) : WGState :=
  { g with wIsValid := true, rebuildCount := g.rebuildCount + 1 }

/-- The `WriteToFile` (lines 58–73): rebuild exactly when the workspace is
invalid, then write. -/
def writeToFile (g : WGState) : WGState :=
  if ¬g.wIsValid then updateWorkspace g else g

/-! ### Concrete inputs used by the witness and counterexample
theorems. -/

/-- A generic bin. -/
def wBin : Bin := ⟨"binA", "bc", [], true⟩

/-- A background process that retries on zero counts and whose dataset
yields nothing anywhere. -/
def wProcZeros : Process := ⟨"ttbar", false, "pc", true, 1, [], fun _ => ⟨0, 0⟩⟩

/-- A background process that accepts zero counts, with yield only at the
second (bin-cut-dropped) ladder level. -/
def wProcNoZeros : Process :=
  ⟨"wjets", false, "pc", false, 1, [],
    fun c => if c = "(4*weight*eff_trig/w_btag)*((base)&&(pc))" then ⟨5, 2⟩
             else ⟨0, 0⟩⟩

/-- A background process whose full selection succeeds immediately. -/
def wProcPos : Process := ⟨"qcd", false, "pc", true, 2, [], fun _ => ⟨3, 2⟩⟩

/-- A data process. -/
def wProcData : Process := ⟨"data", true, "dc", false, 5, [], fun _ => ⟨7, 1⟩⟩

/-- A signal process (name contains `"sig"`), whose full selection
succeeds immediately. -/
def wProcSig : Process := ⟨"sig", false, "sc", false, 3, [], fun _ => ⟨4, 1⟩⟩

/-- A second bin differing from `wBin` only in its name. -/
def wBinB : Bin := ⟨"binB", "bc", [], true⟩

/-- A single-lepton search bin qualifying for the dilepton systematic. -/
def wBinDilep : Bin := ⟨"r4", "mt>140", [], true⟩

/-- The 2×2 scenario grid of spec §8 (cells A, B / C, D). -/
def wGrid : List (List Bin) :=
  [[⟨"A", "ca", [], true⟩, ⟨"B", "cb", [], true⟩],
   [⟨"C", "cc", [], true⟩, ⟨"D", "cd", [], true⟩]]

/-- Per-cell yields for the §8 scenario: A=100, B=10, C=8, D=1 at unit
weight. -/
def wGridYield : Bin → Process → String → GammaParams :=
  fun b _ _ =>
    if b.name = "A" then ⟨100, 1⟩
    else if b.name = "B" then ⟨10, 1⟩
    else if b.name = "C" then ⟨8, 1⟩
    else ⟨1, 1⟩

/-- A one-block, one-bin layout for the systematics-file runs. -/
def wBlocks : List (List (List Bin)) := [[[⟨"bin1", "c1", [], true⟩]]]

/-! ## Theorems -/

theorem cmpO_eq_iff {α : Type} [LinearOrder α] (a b : α) :
    cmpO a b = .eq ↔ a = b := by
  unfold cmpO
  split
  case isTrue h =>
    constructor
    · intro hc; cases hc
    · intro hab; exact absurd hab (ne_of_lt h)
  case isFalse h =>
    split
    case isTrue h2 => simp [h2]
    case isFalse h2 =>
      constructor
      · intro hc; cases hc
      · intro hab; exact absurd hab h2

theorem ordering_then_eq {x y : Ordering} :
    x.then y = .eq ↔ x = .eq ∧ y = .eq := by
  cases x <;> simp [Ordering.then]

theorem cmpList_eq_iff {α : Type} (c : α → α → Ordering)
    (hc : ∀ a b, c a b = .eq ↔ a = b) :
    ∀ l1 l2 : List α, cmpList c l1 l2 = .eq ↔ l1 = l2 := by
  intro l1
  induction l1 with
  | nil => intro l2; cases l2 <;> simp [cmpList]
  | cons a as ih =>
    intro l2
    cases l2 with
    | nil => simp [cmpList]
    | cons b bs => simp [cmpList, ordering_then_eq, hc, ih]

theorem Systematic_cmp_eq_iff (a b : Systematic) :
    Systematic.cmp a b = .eq ↔ a = b := by
  cases a; cases b
  simp [Systematic.cmp, ordering_then_eq, cmpO_eq_iff, Systematic.mk.injEq]

theorem Bin_cmp_eq_iff (a b : Bin) :
    Bin.cmp a b = .eq ↔ a.cut = b.cut ∧ a.systematics = b.systematics := by
  simp [Bin.cmp, ordering_then_eq, cmpO_eq_iff,
    cmpList_eq_iff Systematic.cmp Systematic_cmp_eq_iff]

theorem keyEquiv_iff (k1 k2 : YieldKey) :
    keyEquiv k1 k2 = true ↔
      k1.bin.cut = k2.bin.cut ∧ k1.bin.systematics = k2.bin.systematics ∧
      k1.process.name = k2.process.name ∧ k1.cut = k2.cut := by
  simp [keyEquiv, YieldKey.cmp, ordering_then_eq, Bin_cmp_eq_iff,
    Process.cmp, cmpO_eq_iff, and_assoc]

theorem keyEquiv_refl (k : YieldKey) : keyEquiv k k = true :=
  (keyEquiv_iff k k).mpr ⟨rfl, rfl, rfl, rfl⟩

theorem keyEquiv_congr {k1 k2 : YieldKey} (h : keyEquiv k1 k2 = true)
    (e : YieldKey) : keyEquiv e k1 = keyEquiv e k2 := by
  obtain ⟨h1, h2, h3, h4⟩ := (keyEquiv_iff k1 k2).mp h
  have : (keyEquiv e k1 = true) ↔ (keyEquiv e k2 = true) := by
    rw [keyEquiv_iff, keyEquiv_iff, h1, h2, h3, h4]
  cases hb : keyEquiv e k2
  · cases hb2 : keyEquiv e k1
    · rfl
    · exact absurd (hb ▸ this.mp hb2) (by simp)
  · exact this.mpr hb

theorem cacheLookup_congr {k1 k2 : YieldKey} (h : keyEquiv k1 k2 = true)
    (c : Cache) : cacheLookup c k1 = cacheLookup c k2 := by
  unfold cacheLookup
  induction c with
  | nil => rfl
  | cons e rest ih =>
    simp only [List.find?]
    rw [keyEquiv_congr h e.1]
    cases keyEquiv e.1 k2
    · simpa using ih
    · rfl

theorem cacheLookup_insert (c : Cache) (k : YieldKey) (v : GammaParams) :
    cacheLookup (cacheInsert c k v) k = some v := by
  unfold cacheInsert
  split
  case isTrue hs =>
    induction c with
    | nil => simp at hs
    | cons e rest ih =>
      by_cases he : keyEquiv e.1 k = true
      · simp [cacheLookup, List.find?, he]
      · have he' : keyEquiv e.1 k = false := by
          cases h : keyEquiv e.1 k
          · rfl
          · exact absurd h he
        simp only [List.find?_cons, he', cond_false] at hs
        simpa [cacheLookup, List.find?, he'] using ih hs
  case isFalse hs =>
    have hnone : List.find? (fun e => keyEquiv e.1 k) c = none :=
      Option.not_isSome_iff_eq_none.mp hs
    simp [cacheLookup, List.find?_append, hnone, keyEquiv_refl]

theorem getYield_snd_isSome (lumi : ℚ) (k : YieldKey) (cache : Cache) :
    (cacheLookup (getYield lumi k cache).2.1 k).isSome = true := by
  by_cases h : (cacheLookup cache k).isSome
  · simp [getYield, h]
  · have : (getYield lumi k cache).2.1 =
        cacheInsert cache k (GammaParams.scale (storeFactor lumi k.process)
          (match cacheLookup cache k with
           | some v => (GammaParams.scale (getFactor lumi k.process) v, [])
           | none => computeYieldRaw lumi k.bin k.process k.cut).1) := by
      simp [getYield, h, computeYield]
    rw [this, cacheLookup_insert]
    rfl

theorem getYield_fst (lumi : ℚ) (k : YieldKey) (cache : Cache) :
    (getYield lumi k cache).1 =
      GammaParams.scale (getFactor lumi k.process)
        ((cacheLookup (getYield lumi k cache).2.1 k).getD ⟨0, 0⟩) := rfl

theorem getYield_cached (lumi : ℚ) (k : YieldKey) (cache : Cache)
    {v : GammaParams} (h : cacheLookup cache k = some v) :
    getYield lumi k cache =
      (GammaParams.scale (getFactor lumi k.process) v, cache, []) := by
  simp [getYield, h]

/-- Claim C3 (amended): two `YieldManager::GetYield` calls with structurally
equal keys at the same luminosity return identical `GammaParams`; the
first call fills the process-wide shared cache (possibly issuing several
dataset queries during the fallback ladder or the signal averaging) and
the second call is served from the cache, issuing no dataset query and
leaving the cache unchanged. -/
theorem C3_cache_idempotence (lumi : ℚ) (k : YieldKey) (cache : Cache) :
    getYield lumi k ((getYield lumi k cache).2.1) =
      ((getYield lumi k cache).1, (getYield lumi k cache).2.1, []) := by
  obtain ⟨v, hv⟩ := Option.isSome_iff_exists.mp (getYield_snd_isSome lumi k cache)
  rw [getYield_cached lumi k _ hv, getYield_fst lumi k cache, hv]
  rfl

/-- Claim C3 counterexample to the claim as stated: with a cache starting
empty, for a background process that retries on zero counts and whose
dataset yields zero weight everywhere, the very first
`GetYield` call already performs five dataset queries (one per ladder
level), so the two calls together perform the underlying dataset query
more than once. -/
theorem C3_counterexample :
    ((getYield 4 ⟨wBin, wProcZeros, "base"⟩ []).2.2).length = 5 ∧
    ¬((getYield 4 ⟨wBin, wProcZeros, "base"⟩ []).2.2).length ≤ 1 := by
  constructor
  · decide
  · decide

/-- Claim C10: `Bin::operator<` compares only the pair (cut, systematics)
and ignores the name: two bins with equal cuts and systematics but
different names are mutually incomparable, and therefore collide as the
`Bin` component of a `YieldKey` in the process-wide shared yield cache —
a `GetYield` with the second bin is served from the cache entry filled
for the first bin, without a new dataset query. -/
theorem C10_bin_ordering_ignores_name (a b : Bin) (p : Process)
    (c : String) (lumi : ℚ) (cache : Cache)
    (hcut : a.cut = b.cut) (hsys : a.systematics = b.systematics)
    (hname : a.name ≠ b.name) :
    Bin.lt a b = false ∧ Bin.lt b a = false ∧
    getYield lumi ⟨b, p, c⟩ ((getYield lumi ⟨a, p, c⟩ cache).2.1) =
      ((getYield lumi ⟨a, p, c⟩ cache).1,
       (getYield lumi ⟨a, p, c⟩ cache).2.1, []) := by
  have hab : Bin.cmp a b = .eq := (Bin_cmp_eq_iff a b).mpr ⟨hcut, hsys⟩
  have hba : Bin.cmp b a = .eq := (Bin_cmp_eq_iff b a).mpr ⟨hcut.symm, hsys.symm⟩
  refine ⟨by simp [Bin.lt, hab], by simp [Bin.lt, hba], ?_⟩
  have hk : keyEquiv ⟨b, p, c⟩ ⟨a, p, c⟩ = true :=
    (keyEquiv_iff _ _).mpr ⟨hcut.symm, hsys.symm, rfl, rfl⟩
  obtain ⟨v, hv⟩ :=
    Option.isSome_iff_exists.mp (getYield_snd_isSome lumi ⟨a, p, c⟩ cache)
  have hv' : cacheLookup ((getYield lumi ⟨a, p, c⟩ cache).2.1) ⟨b, p, c⟩ =
      some v := by
    rw [cacheLookup_congr hk]; exact hv
  rw [getYield_cached lumi ⟨b, p, c⟩ _ hv',
    getYield_fst lumi ⟨a, p, c⟩ cache, hv]
  rfl

/-- The five ladder cuts do not depend on the luminosity for a data
process, whose luminosity weight is the trivial cut. -/
theorem ladderCuts_data (l1 l2 : ℚ) (p : Process) (bin : Bin)
    (cut : String) (h : p.isData = true) :
    ladderCuts l1 p bin cut = ladderCuts l2 p bin cut := by
  simp [ladderCuts, lumiWeight, h]

theorem scale_one (g : GammaParams) : GammaParams.scale 1 g = g := by
  simp [GammaParams.scale]

theorem computeYield_uncached (lumi : ℚ) (k : YieldKey) (cache : Cache)
    (h : cacheLookup cache k = none) :
    computeYield lumi k cache =
      (cacheInsert cache k (GammaParams.scale (storeFactor lumi k.process)
        (computeYieldRaw lumi k.bin k.process k.cut).1),
       (computeYieldRaw lumi k.bin k.process k.cut).2) := by
  simp [computeYield, h]

theorem getYield_uncached_fst (lumi : ℚ) (k : YieldKey) (cache : Cache)
    (h : cacheLookup cache k = none) :
    (getYield lumi k cache).1 =
      GammaParams.scale (getFactor lumi k.process)
        (GammaParams.scale (storeFactor lumi k.process)
          (computeYieldRaw lumi k.bin k.process k.cut).1) := by
  have hns : (cacheLookup cache k).isSome = false := by simp [h]
  simp [getYield, hns, computeYield_uncached lumi k cache h,
    cacheLookup_insert]

/-- Claim C2: `ComputeYield` stores the computed yield in the shared cache
rescaled by `store_lumi/local_lumi`, and `GetYield` returns the cached
value rescaled by `local_lumi/store_lumi`; for a data process both
factors are exactly 1, so a data yield is returned exactly as computed,
independent of the manager's configured luminosity. -/
theorem C2_luminosity_rescaling (lumi : ℚ) (k : YieldKey) (cache : Cache)
    (h : cacheLookup cache k = none) :
    cacheLookup (computeYield lumi k cache).1 k =
      some (GammaParams.scale (storeFactor lumi k.process)
        (computeYieldRaw lumi k.bin k.process k.cut).1) ∧
    (∀ (v : GammaParams) (c2 : Cache), cacheLookup c2 k = some v →
      (getYield lumi k c2).1 =
        GammaParams.scale (getFactor lumi k.process) v) ∧
    (k.process.isData = false →
      storeFactor lumi k.process = storeLumi / lumi ∧
      getFactor lumi k.process = lumi / storeLumi) ∧
    (k.process.isData = true →
      storeFactor lumi k.process = 1 ∧ getFactor lumi k.process = 1 ∧
      (getYield lumi k cache).1 =
        (computeYieldRaw lumi k.bin k.process k.cut).1 ∧
      ∀ lumi2 : ℚ, (getYield lumi2 k cache).1 = (getYield lumi k cache).1) := by
  refine ⟨?_, ?_, ?_, ?_⟩
  · rw [computeYield_uncached lumi k cache h, cacheLookup_insert]
  · intro v c2 hv
    rw [getYield_cached lumi k c2 hv]
  · intro hd; simp [storeFactor, getFactor, hd]
  · intro hd
    have hs1 : storeFactor lumi k.process = 1 := by simp [storeFactor, hd]
    have hg1 : getFactor lumi k.process = 1 := by simp [getFactor, hd]
    have hval : ∀ l : ℚ, (getYield l k cache).1 =
        (computeYieldRaw l k.bin k.process k.cut).1 := by
      intro l
      rw [getYield_uncached_fst l k cache h]
      simp [storeFactor, getFactor, hd, scale_one]
    refine ⟨hs1, hg1, hval lumi, ?_⟩
    intro lumi2
    rw [hval lumi2, hval lumi]
    unfold computeYieldRaw
    rw [ladderCuts_data lumi2 lumi k.process k.bin k.cut hd]

/-- Witness for C2 at a concrete data process with an empty cache. -/
theorem C2_luminosity_rescaling_witness :
    cacheLookup ([] : Cache) ⟨wBin, wProcData, "base"⟩ = none ∧
    (getYield 7 ⟨wBin, wProcData, "base"⟩ []).1 =
      (computeYieldRaw 7 wBin wProcData "base").1 :=
  ⟨rfl,
    ((C2_luminosity_rescaling 7 ⟨wBin, wProcData, "base"⟩ [] rfl).2.2.2
      rfl).2.2.1⟩

/-- Witness for C10 at two concrete bins differing only in name. -/
theorem C10_bin_ordering_ignores_name_witness :
    wBin.cut = wBinB.cut ∧ wBin.systematics = wBinB.systematics ∧
    wBin.name ≠ wBinB.name ∧
    Bin.lt wBin wBinB = false ∧ Bin.lt wBinB wBin = false ∧
    getYield 4 ⟨wBinB, wProcPos, "base"⟩
        ((getYield 4 ⟨wBin, wProcPos, "base"⟩ []).2.1) =
      ((getYield 4 ⟨wBin, wProcPos, "base"⟩ []).1,
       (getYield 4 ⟨wBin, wProcPos, "base"⟩ []).2.1, []) :=
  ⟨rfl, rfl, by decide,
    (C10_bin_ordering_ignores_name wBin wBinB wProcPos "base" 4 []
      rfl rfl (by decide)).1,
    (C10_bin_ordering_ignores_name wBin wBinB wProcPos "base" 4 []
      rfl rfl (by decide)).2.1,
    (C10_bin_ordering_ignores_name wBin wBinB wProcPos "base" 4 []
      rfl rfl (by decide)).2.2⟩

/-! Lemmas characterizing the fallback loop. -/

theorem ladderGo_of_pos (p : Process) (cuts : List String) (icut : ℕ)
    (gps : GammaParams) (h : ¬gps.weight ≤ 0) :
    ladderGo p cuts icut gps = (gps, []) := by
  cases cuts <;> simp [ladderGo, h]

theorem ladderGo_break (p : Process) (cuts : List String) (icut : ℕ)
    (gps : GammaParams) (hz : p.countZeros = false) (hw : gps.weight ≤ 0)
    (hi : 0 < icut) (hne : cuts ≠ []) :
    ladderGo p cuts icut gps = (⟨0, 0⟩, []) := by
  cases cuts with
  | nil => exact absurd rfl hne
  | cons c rest => simp [ladderGo, hw, hi, hz]

theorem ladderGo_tail (p : Process) (hz : p.countZeros = true) :
    ∀ (cuts : List String) (icut : ℕ) (gps : GammaParams), cuts ≠ [] →
      0 < icut → gps.weight ≤ 0 →
    ladderGo p cuts icut gps =
      (⟨0, (cuts.map (fun c => (levelQuery p c).1.weight)).getD
            (min ((cuts.map (fun c => (levelQuery p c).1.weight)).findIdx
                (fun w => decide (0 < w))) (cuts.length - 1)) 0⟩,
       ((cuts.map (fun c => (levelQuery p c).2)).take
            (min ((cuts.map (fun c => (levelQuery p c).1.weight)).findIdx
                (fun w => decide (0 < w))) (cuts.length - 1) + 1)).flatten) := by
  intro cuts
  induction cuts with
  | nil => intro icut gps hne; exact absurd rfl hne
  | cons c rest ih =>
    intro icut gps _ hi hw
    have hic : ¬icut = 0 := Nat.pos_iff_ne_zero.mp hi
    have hcz : ¬(0 < icut ∧ p.countZeros = false) := by simp [hz]
    have hstep : ladderGo p (c :: rest) icut gps =
        ((ladderGo p rest (icut + 1) ⟨0, (levelQuery p c).1.weight⟩).1,
         (levelQuery p c).2 ++
           (ladderGo p rest (icut + 1) ⟨0, (levelQuery p c).1.weight⟩).2) := by
      simp [ladderGo, hw, hcz, hic, GammaParams.setNEffectiveAndWeight]
    by_cases hpos : 0 < (levelQuery p c).1.weight
    · have hdone : ladderGo p rest (icut + 1)
          (⟨0, (levelQuery p c).1.weight⟩ : GammaParams) =
          (⟨0, (levelQuery p c).1.weight⟩, []) :=
        ladderGo_of_pos p rest (icut + 1) _ (by simpa using hpos)
      rw [hstep, hdone]
      simp [List.findIdx_cons, hpos]
    · have hwc : (levelQuery p c).1.weight ≤ 0 := not_lt.mp hpos
      cases rest with
      | nil =>
        rw [hstep]
        simp [ladderGo, List.findIdx_cons, hpos]
      | cons c2 rest2 =>
        have hrec := ih (icut + 1) ⟨0, (levelQuery p c).1.weight⟩
          (by simp) (Nat.succ_pos icut) hwc
        have hdp : (decide (0 < (levelQuery p c).1.weight)) = false :=
          decide_eq_false hpos
        rw [hstep, hrec]
        simp only [List.map_cons, List.findIdx_cons, hdp, cond_false,
          List.length_cons, Nat.add_sub_cancel, Nat.succ_min_succ,
          List.getD_cons_succ, List.take_succ_cons, List.flatten_cons]

theorem ladder_top (p : Process) (c : String) (rest : List String) :
    ladderGo p (c :: rest) 0 ⟨0, 0⟩ =
      ((ladderGo p rest 1 (levelQuery p c).1).1,
       (levelQuery p c).2 ++ (ladderGo p rest 1 (levelQuery p c).1).2) := by
  simp [ladderGo]

theorem computeYieldRaw_eq_ladder (lumi : ℚ) (bin : Bin) (p : Process)
    (cut : String) (hent : p.entries ≠ 0) :
    computeYieldRaw lumi bin p cut =
      ladderGo p (ladderCuts lumi p bin cut) 0 ⟨0, 0⟩ := by
  simp [computeYieldRaw, hent]

theorem ladder_full_nz (p : Process) (hz : p.countZeros = false) (c : String)
    (rest : List String) (hrest : rest ≠ [])
    (hw : (levelQuery p c).1.weight ≤ 0) :
    ladderGo p (c :: rest) 0 ⟨0, 0⟩ = (⟨0, 0⟩, (levelQuery p c).2) := by
  rw [ladder_top,
    ladderGo_break p rest 1 (levelQuery p c).1 hz hw Nat.one_pos hrest]
  simp

theorem ladder_full_cz (p : Process) (hz : p.countZeros = true) (c : String)
    (rest : List String) (hrest : rest ≠ [])
    (hw : (levelQuery p c).1.weight ≤ 0) :
    ladderGo p (c :: rest) 0 ⟨0, 0⟩ =
      (⟨0, ((c :: rest).map (fun x => (levelQuery p x).1.weight)).getD
            (min (((c :: rest).map (fun x => (levelQuery p x).1.weight)).findIdx
                (fun w => decide (0 < w))) ((c :: rest).length - 1)) 0⟩,
       (((c :: rest).map (fun x => (levelQuery p x).2)).take
            (min (((c :: rest).map (fun x => (levelQuery p x).1.weight)).findIdx
                (fun w => decide (0 < w))) ((c :: rest).length - 1) + 1)).flatten) := by
  cases rest with
  | nil => exact absurd rfl hrest
  | cons r rs =>
    rw [ladder_top,
      ladderGo_tail p hz (r :: rs) 1 (levelQuery p c).1 (by simp) Nat.one_pos hw]
    have hdp : decide (0 < (levelQuery p c).1.weight) = false :=
      decide_eq_false (not_lt.mpr hw)
    simp only [List.map_cons, List.findIdx_cons, hdp, cond_false,
      List.length_cons, Nat.add_sub_cancel, Nat.succ_min_succ,
      List.getD_cons_succ, List.take_succ_cons, List.flatten_cons]

theorem computeYieldRaw_cz (lumi : ℚ) (bin : Bin) (p : Process) (cut : String)
    (hent : p.entries ≠ 0) (hz : p.countZeros = true)
    (hw0 : (levelWeights lumi bin p cut).getD 0 0 ≤ 0) :
    computeYieldRaw lumi bin p cut =
      (⟨0, (levelWeights lumi bin p cut).getD (stopLevel lumi bin p cut) 0⟩,
       ((levelTraces lumi bin p cut).take
          (stopLevel lumi bin p cut + 1)).flatten) := by
  have hw0' : (levelQuery p (cutMul (lumiWeight lumi p)
      (cutAnd (cutAnd cut bin.cut) p.cut))).1.weight ≤ 0 := by
    simpa [levelWeights, ladderCuts] using hw0
  rw [computeYieldRaw_eq_ladder lumi bin p cut hent]
  have hfull := ladder_full_cz p hz
    (cutMul (lumiWeight lumi p) (cutAnd (cutAnd cut bin.cut) p.cut))
    [cutMul (lumiWeight lumi p) (cutAnd cut p.cut),
     cutMul (lumiWeight lumi p) p.cut, lumiWeight lumi p, cutOne]
    (by simp) hw0'
  simp only [List.length_cons, List.length_nil] at hfull
  simp only [stopLevel, hz, if_true, levelWeights, levelTraces, ladderCuts]
  exact hfull

theorem computeYieldRaw_nz (lumi : ℚ) (bin : Bin) (p : Process) (cut : String)
    (hent : p.entries ≠ 0) (hz : p.countZeros = false)
    (hw0 : (levelWeights lumi bin p cut).getD 0 0 ≤ 0) :
    computeYieldRaw lumi bin p cut =
      (⟨0, 0⟩, (levelTraces lumi bin p cut).getD 0 []) := by
  have hw0' : (levelQuery p (cutMul (lumiWeight lumi p)
      (cutAnd (cutAnd cut bin.cut) p.cut))).1.weight ≤ 0 := by
    simpa [levelWeights, ladderCuts] using hw0
  rw [computeYieldRaw_eq_ladder lumi bin p cut hent]
  simp only [levelTraces, ladderCuts, List.map_cons, List.getD_cons_zero]
  exact ladder_full_nz p hz _ _ (by simp) hw0'

theorem levelWeights_length (lumi : ℚ) (bin : Bin) (p : Process)
    (cut : String) : (levelWeights lumi bin p cut).length = 5 := by
  simp [levelWeights, ladderCuts]

theorem stopLevel_ge_one (lumi : ℚ) (bin : Bin) (p : Process) (cut : String)
    (hz : p.countZeros = true)
    (hw0 : (levelWeights lumi bin p cut).getD 0 0 ≤ 0) :
    1 ≤ stopLevel lumi bin p cut := by
  have hw0' : (levelQuery p (cutMul (lumiWeight lumi p)
      (cutAnd (cutAnd cut bin.cut) p.cut))).1.weight ≤ 0 := by
    simpa [levelWeights, ladderCuts] using hw0
  have hdp : decide (0 < (levelQuery p (cutMul (lumiWeight lumi p)
      (cutAnd (cutAnd cut bin.cut) p.cut))).1.weight) = false :=
    decide_eq_false (not_lt.mpr hw0')
  simp only [stopLevel, hz, if_true, levelWeights, ladderCuts, List.map_cons,
    List.findIdx_cons, hdp, cond_false]
  exact Nat.le_min.mpr ⟨Nat.succ_le_succ (Nat.zero_le _), by norm_num⟩

/-- Claim C1 (amended): for an uncached yield request on a process with
entries, when the tightest selection returns nonpositive weight,
`YieldManager::ComputeYield` retries with progressively looser cuts
exactly when the process reports `CountZeros()==true`; when
`CountZeros()==false` the zero yield is accepted at once with only the
full-selection query issued.  When it retries, the ladder stops at the
first level returning positive weight (every earlier level has
nonpositive weight, and the accepted level has positive weight unless
all five levels are exhausted), and the result retains the accepted
level's weight with the effective count forced to zero. -/
theorem C1_fallback_ladder (lumi : ℚ) (bin : Bin) (p : Process)
    (cut : String) (hent : p.entries ≠ 0)
    (hw0 : (levelWeights lumi bin p cut).getD 0 0 ≤ 0) :
    (p.countZeros = false →
      computeYieldRaw lumi bin p cut =
        (⟨0, 0⟩, (levelTraces lumi bin p cut).getD 0 [])) ∧
    (p.countZeros = true →
      computeYieldRaw lumi bin p cut =
        (⟨0, (levelWeights lumi bin p cut).getD (stopLevel lumi bin p cut) 0⟩,
         ((levelTraces lumi bin p cut).take
            (stopLevel lumi bin p cut + 1)).flatten) ∧
      1 ≤ stopLevel lumi bin p cut ∧
      (∀ j, j < stopLevel lumi bin p cut →
        (levelWeights lumi bin p cut).getD j 0 ≤ 0) ∧
      (stopLevel lumi bin p cut < 4 →
        0 < (levelWeights lumi bin p cut).getD (stopLevel lumi bin p cut) 0)) := by
  constructor
  · intro hz; exact computeYieldRaw_nz lumi bin p cut hent hz hw0
  · intro hz
    refine ⟨computeYieldRaw_cz lumi bin p cut hent hz hw0,
      stopLevel_ge_one lumi bin p cut hz hw0, ?_, ?_⟩
    · intro j hj
      have hK4 : stopLevel lumi bin p cut ≤ 4 := by
        simp only [stopLevel, hz, if_true]
        exact min_le_right _ _
      have hjlen : j < (levelWeights lumi bin p cut).length := by
        rw [levelWeights_length]
        omega
      have hjfind : j < (levelWeights lumi bin p cut).findIdx
          (fun w => decide (0 < w)) := by
        apply lt_of_lt_of_le hj
        simp only [stopLevel, hz, if_true]
        exact min_le_left _ _
      have hfalse := List.not_of_lt_findIdx hjfind
      rw [List.getD_eq_getElem (levelWeights lumi bin p cut) 0 hjlen]
      exact not_lt.mp (of_decide_eq_false hfalse)
    · intro h4
      have hfeq : stopLevel lumi bin p cut =
          (levelWeights lumi bin p cut).findIdx (fun w => decide (0 < w)) := by
        simp only [stopLevel, hz, if_true] at h4 ⊢
        rcases Nat.lt_or_ge ((levelWeights lumi bin p cut).findIdx
            (fun w => decide (0 < w))) 4 with hlt | hge
        · exact Nat.min_eq_left (Nat.le_of_lt hlt)
        · rw [Nat.min_eq_right hge] at h4
          omega
      have hKlen : stopLevel lumi bin p cut <
          (levelWeights lumi bin p cut).length := by
        rw [levelWeights_length]
        omega
      rw [List.getD_eq_getElem (levelWeights lumi bin p cut) 0 hKlen]
      have := @List.findIdx_getElem ℚ (fun w : ℚ => decide (0 < w))
        (levelWeights lumi bin p cut) (by rw [← hfeq]; exact hKlen)
      have hj := of_decide_eq_true this
      simpa [hfeq] using hj

/-- Witness for C1 at a concrete process that retries on zero counts and
finds nothing at any ladder level. -/
theorem C1_fallback_ladder_witness :
    wProcZeros.entries ≠ 0 ∧
    (levelWeights 4 wBin wProcZeros "base").getD 0 0 ≤ 0 ∧
    computeYieldRaw 4 wBin wProcZeros "base" =
      (⟨0, (levelWeights 4 wBin wProcZeros "base").getD
          (stopLevel 4 wBin wProcZeros "base") 0⟩,
       ((levelTraces 4 wBin wProcZeros "base").take
          (stopLevel 4 wBin wProcZeros "base" + 1)).flatten) ∧
    1 ≤ stopLevel 4 wBin wProcZeros "base" :=
  ⟨by decide, by decide,
    ((C1_fallback_ladder 4 wBin wProcZeros "base" (by decide) (by decide)).2
      rfl).1,
    ((C1_fallback_ladder 4 wBin wProcZeros "base" (by decide) (by decide)).2
      rfl).2.1⟩

/-- Claim C1 counterexample to the claim as stated: for a process with
`CountZeros()==false` whose tightest selection yields zero weight, the
code does *not* retry — only the level-0 query is issued and the zero is
accepted — even though the next looser level would have returned
positive weight.  The claim asserts the retries happen exactly when
`CountZeros()==false`, which is the opposite of the code's behavior. -/
theorem C1_counterexample :
    wProcNoZeros.countZeros = false ∧
    (levelWeights 4 wBin wProcNoZeros "base").getD 0 0 = 0 ∧
    0 < (levelWeights 4 wBin wProcNoZeros "base").getD 1 0 ∧
    (computeYieldRaw 4 wBin wProcNoZeros "base").2 =
      [cutMul (lumiWeight 4 wProcNoZeros)
        (cutAnd (cutAnd "base" wBin.cut) wProcNoZeros.cut)] ∧
    (computeYieldRaw 4 wBin wProcNoZeros "base").1 = ⟨0, 0⟩ := by
  refine ⟨rfl, by decide, by decide, by decide, by decide⟩

/-- Claim C4: when the full selection itself returns positive weight its
`GammaParams` is kept whole; whenever the loop has to move past the full
selection, the resulting `GammaParams` has its effective count forced to
zero and retains only the weight returned at the accepted looser
level. -/
theorem C4_fallback_forces_zero (lumi : ℚ) (bin : Bin) (p : Process)
    (cut : String) (hent : p.entries ≠ 0) :
    (0 < (levelWeights lumi bin p cut).getD 0 0 →
      computeYieldRaw lumi bin p cut =
        levelQuery p (cutMul (lumiWeight lumi p)
          (cutAnd (cutAnd cut bin.cut) p.cut))) ∧
    ((levelWeights lumi bin p cut).getD 0 0 ≤ 0 →
      (computeYieldRaw lumi bin p cut).1.nEff = 0 ∧
      (p.countZeros = true →
        (computeYieldRaw lumi bin p cut).1.weight =
          (levelWeights lumi bin p cut).getD (stopLevel lumi bin p cut) 0 ∧
        1 ≤ stopLevel lumi bin p cut)) := by
  constructor
  · intro hpos
    have hw0' : 0 < (levelQuery p (cutMul (lumiWeight lumi p)
        (cutAnd (cutAnd cut bin.cut) p.cut))).1.weight := by
      simpa [levelWeights, ladderCuts] using hpos
    rw [computeYieldRaw_eq_ladder lumi bin p cut hent]
    show ladderGo p (cutMul (lumiWeight lumi p)
        (cutAnd (cutAnd cut bin.cut) p.cut) ::
      [cutMul (lumiWeight lumi p) (cutAnd cut p.cut),
       cutMul (lumiWeight lumi p) p.cut, lumiWeight lumi p, cutOne]) 0 ⟨0, 0⟩ = _
    rw [ladder_top, ladderGo_of_pos p _ 1 _ (not_le.mpr hw0')]
    simp
  · intro hw0
    by_cases hz : p.countZeros = true
    · rw [computeYieldRaw_cz lumi bin p cut hent hz hw0]
      exact ⟨rfl, fun _ => ⟨rfl, stopLevel_ge_one lumi bin p cut hz hw0⟩⟩
    · have hz' : p.countZeros = false := by
        cases h : p.countZeros
        · rfl
        · exact absurd h hz
      rw [computeYieldRaw_nz lumi bin p cut hent hz' hw0]
      exact ⟨rfl, fun hc => absurd hc hz⟩

/-- Witness for C4 at a concrete process whose full selection succeeds
immediately. -/
theorem C4_fallback_forces_zero_witness :
    0 < (levelWeights 4 wBin wProcPos "base").getD 0 0 ∧
    computeYieldRaw 4 wBin wProcPos "base" =
      levelQuery wProcPos (cutMul (lumiWeight 4 wProcPos)
        (cutAnd (cutAnd "base" wBin.cut) wProcPos.cut)) :=
  ⟨by decide,
    (C4_fallback_forces_zero 4 wBin wProcPos "base" (by decide)).1 (by decide)⟩

/-- Claim C5: for every bin accepted by `NeedsDileptonBin`,
`AddDileptonSystematic` attaches exactly one systematic named
`dilep_<bin name>`, whose strength is `1/sqrt(Y)` when the dilepton
yield `Y` exceeds 1 and exactly 1 otherwise; `Y` is the data yield of
the dilepton bin when it is unblinded, and the sum of all background
yields when it is blinded. -/
theorem C5_dilepton_systematic (sqrtQ : ℚ → ℚ)
    (rmCutOn : String → String → String → String)
    (getY : Bin → Process → String → GammaParams)
    (backgrounds : List Process) (data : Process) (baseline : String)
    (bin : Bin) (hneed : needsDileptonBin baseline bin = true)
    (hfresh : ∀ s ∈ bin.systematics, s.name ≠ "dilep_" ++ bin.name) :
    (bin.blind = true →
      (addDileptonSystematicBin sqrtQ rmCutOn getY backgrounds data baseline
          bin).systematics.filter
          (fun s => s.name = "dilep_" ++ bin.name) =
        [⟨"dilep_" ++ bin.name,
          if 1 < (backgrounds.foldl (fun (acc : GammaParams) bkg => acc.add
              (getY (makeDileptonBin rmCutOn baseline bin).1 bkg
                (makeDileptonBin rmCutOn baseline bin).2)) ⟨0, 0⟩).Yield
          then 1 / sqrtQ (backgrounds.foldl (fun (acc : GammaParams) bkg => acc.add
              (getY (makeDileptonBin rmCutOn baseline bin).1 bkg
                (makeDileptonBin rmCutOn baseline bin).2)) ⟨0, 0⟩).Yield
          else 1⟩]) ∧
    (bin.blind = false →
      (addDileptonSystematicBin sqrtQ rmCutOn getY backgrounds data baseline
          bin).systematics.filter
          (fun s => s.name = "dilep_" ++ bin.name) =
        [⟨"dilep_" ++ bin.name,
          if 1 < (getY (makeDileptonBin rmCutOn baseline bin).1 data
              (makeDileptonBin rmCutOn baseline bin).2).Yield
          then 1 / sqrtQ (getY (makeDileptonBin rmCutOn baseline bin).1 data
              (makeDileptonBin rmCutOn baseline bin).2).Yield
          else 1⟩]) := by
  have hblind : (makeDileptonBin rmCutOn baseline bin).1.blind = bin.blind :=
    rfl
  have hany : bin.systematics.any
      (fun t => t.name = ("dilep_" ++ bin.name)) = false := by
    rw [List.any_eq_false]
    intro t ht
    simpa using hfresh t ht
  have hnil : bin.systematics.filter
      (fun s => s.name = ("dilep_" ++ bin.name)) = [] := by
    rw [List.filter_eq_nil_iff]
    intro t ht
    simpa using hfresh t ht
  constructor
  · intro hb
    simp only [addDileptonSystematicBin, hneed, if_true, hblind, hb,
      Bin.addSystematic, hany, Bool.false_eq_true, if_false,
      List.filter_append, hnil, List.nil_append]
    simp
  · intro hb
    simp only [addDileptonSystematicBin, hneed, if_true, hblind, hb,
      Bin.addSystematic, hany, Bool.false_eq_true, if_false,
      List.filter_append, hnil, List.nil_append]
    simp

/-- Witness for C5 at a concrete blinded single-lepton bin qualifying via
the baseline's lepton requirement, with one background process. -/
theorem C5_dilepton_systematic_witness :
    needsDileptonBin "nleps==1" wBinDilep = true ∧
    (addDileptonSystematicBin (fun q => q) (fun _ _ s => s)
        (fun _ _ _ => ⟨4, 1⟩) [wProcZeros] wProcData "nleps==1"
        wBinDilep).systematics.filter
        (fun s => s.name = "dilep_" ++ wBinDilep.name) =
      [⟨"dilep_" ++ wBinDilep.name,
        if 1 < (([wProcZeros] : List Process).foldl (fun (acc : GammaParams) bkg => acc.add
            ((fun _ _ _ => (⟨4, 1⟩ : GammaParams))
              (makeDileptonBin (fun _ _ s => s) "nleps==1" wBinDilep).1 bkg
              (makeDileptonBin (fun _ _ s => s) "nleps==1" wBinDilep).2))
            ⟨0, 0⟩).Yield
        then 1 / (fun q : ℚ => q) (([wProcZeros] : List Process).foldl
            (fun (acc : GammaParams) bkg => acc.add
              ((fun _ _ _ => (⟨4, 1⟩ : GammaParams))
                (makeDileptonBin (fun _ _ s => s) "nleps==1" wBinDilep).1 bkg
                (makeDileptonBin (fun _ _ s => s) "nleps==1" wBinDilep).2))
            ⟨0, 0⟩).Yield
        else 1⟩] :=
  ⟨by decide,
    (C5_dilepton_systematic (fun q => q) (fun _ _ s => s)
      (fun _ _ _ => ⟨4, 1⟩) [wProcZeros] wProcData "nleps==1" wBinDilep
      (by decide) (by decide)).1 rfl⟩

theorem exists_max (l : List ℚ) (h : l ≠ []) :
    ∃ x ∈ l, ∀ y ∈ l, y ≤ x := by
  induction l with
  | nil => exact absurd rfl h
  | cons a as ih =>
    cases as with
    | nil =>
      refine ⟨a, by simp, ?_⟩
      intro y hy
      simp at hy
      simp [hy]
    | cons b bs =>
      obtain ⟨x, hx, hmax⟩ := ih (by simp)
      by_cases hax : a ≤ x
      · refine ⟨x, List.mem_cons_of_mem a hx, ?_⟩
        intro y hy
        rcases List.mem_cons.mp hy with h1 | h2
        · exact h1 ▸ hax
        · exact hmax y h2
      · refine ⟨a, by simp, ?_⟩
        intro y hy
        rcases List.mem_cons.mp hy with h1 | h2
        · exact h1 ▸ le_refl a
        · exact le_trans (hmax y h2) (le_of_not_le hax)

theorem maxIdx_lt_length (l : List ℚ) (h : l ≠ []) : maxIdx l < l.length := by
  obtain ⟨x, hx, hmax⟩ := exists_max l h
  unfold maxIdx
  apply List.findIdx_lt_length.mpr
  refine ⟨x, hx, ?_⟩
  rw [List.all_eq_true]
  intro y hy
  exact decide_eq_true (hmax y hy)

theorem maxIdx_le (l : List ℚ) (h : l ≠ []) (i : ℕ) (hi : i < l.length) :
    l.getD i 0 ≤ l.getD (maxIdx l) 0 := by
  have hlt := maxIdx_lt_length l h
  rw [List.getD_eq_getElem l 0 hi, List.getD_eq_getElem l 0 hlt]
  have hp := @List.findIdx_getElem ℚ
    (fun x => l.all (fun y => decide (y ≤ x))) l
    (by unfold maxIdx at hlt; exact hlt)
  have := List.all_eq_true.mp hp _ (List.getElem_mem hi)
  exact of_decide_eq_true this

theorem getD_map_yield (l : List GammaParams) (i : ℕ) (h : i < l.length) :
    (l.map GammaParams.Yield).getD i 0 = (l.getD i ⟨0, 0⟩).Yield := by
  rw [List.getD_eq_getElem (l.map GammaParams.Yield) 0 (by simpa using h),
    List.getD_eq_getElem l ⟨0, 0⟩ h, List.getElem_map]

theorem hasRx_iff (doSyst : Bool) (freeSysts : List FreeSystematic)
    (mrow mcol irow icol : ℕ) (bin : Bin) (bkg : Process) :
    hasRxFactor (rateFactors doSyst freeSysts mrow mcol irow icol bin bkg) =
      true ↔ icol ≠ mcol := by
  unfold hasRxFactor rateFactors
  simp only [List.any_append, Bool.or_eq_true, List.any_eq_true]
  constructor
  · rintro ((((h | h) | h) | h) | h)
    · obtain ⟨f, hf, hx⟩ := h
      simp at hf
      subst hf
      simp [isRxFactor] at hx
    · obtain ⟨f, hf, _⟩ := h
      intro hc
      subst hc
      simp at hf
    · obtain ⟨f, hf, hx⟩ := h
      by_cases hr : irow ≠ mrow
      · simp [hr] at hf
        subst hf
        simp [isRxFactor] at hx
      · simp [hr] at hf
    · obtain ⟨f, hf, hx⟩ := h
      simp at hf
      subst hf
      simp [isRxFactor] at hx
    · obtain ⟨f, hf, hx⟩ := h
      by_cases hd : doSyst = true
      · simp [hd] at hf
        rcases hf with ⟨s, _, hs⟩ | ⟨s, _, hs⟩ <;>
          · subst hs; simp [isRxFactor] at hx
      · simp [hd] at hf
  · intro h
    exact Or.inl (Or.inl (Or.inl (Or.inr
      ⟨.rx (icol + 1) (mcol + 1), by simp [h], by simp [isRxFactor]⟩)))

theorem hasRy_iff (doSyst : Bool) (freeSysts : List FreeSystematic)
    (mrow mcol irow icol : ℕ) (bin : Bin) (bkg : Process) :
    hasRyFactor (rateFactors doSyst freeSysts mrow mcol irow icol bin bkg) =
      true ↔ irow ≠ mrow := by
  unfold hasRyFactor rateFactors
  simp only [List.any_append, Bool.or_eq_true, List.any_eq_true]
  constructor
  · rintro ((((h | h) | h) | h) | h)
    · obtain ⟨f, hf, hx⟩ := h
      simp at hf
      subst hf
      simp [isRyFactor] at hx
    · obtain ⟨f, hf, hx⟩ := h
      by_cases hr : icol ≠ mcol
      · simp [hr] at hf
        subst hf
        simp [isRyFactor] at hx
      · simp [hr] at hf
    · obtain ⟨f, hf, _⟩ := h
      intro hc
      subst hc
      simp at hf
    · obtain ⟨f, hf, hx⟩ := h
      simp at hf
      subst hf
      simp [isRyFactor] at hx
    · obtain ⟨f, hf, hx⟩ := h
      by_cases hd : doSyst = true
      · simp [hd] at hf
        rcases hf with ⟨s, _, hs⟩ | ⟨s, _, hs⟩ <;>
          · subst hs; simp [isRyFactor] at hx
      · simp [hd] at hf
  · intro h
    exact Or.inl (Or.inl (Or.inr
      ⟨.ry (irow + 1) (mrow + 1), by simp [h], by simp [isRyFactor]⟩))

/-- Claim C6: `MaxRow`/`MaxCol` index a row/column whose background-only
summed yield is at least every other row's/column's sum, and the raw
background rate factor list of the bin at `(irow, icol)` contains a
column-ratio factor exactly when `icol` differs from `MaxCol` and a
row-ratio factor exactly when `irow` differs from `MaxRow`; in
particular the reference cell at `(MaxRow, MaxCol)` has neither. -/
theorem C6_abcd_reference_cell
    (getY : Bin → Process → String → GammaParams)
    (backgrounds : List Process) (baseline : String)
    (grid : List (List Bin)) (doSyst : Bool)
    (freeSysts : List FreeSystematic) (irow icol : ℕ) (bin : Bin)
    (bkg : Process) (hrow : grid ≠ []) :
    (∀ i, i < (rowSums getY backgrounds baseline grid).length →
      ((rowSums getY backgrounds baseline grid).getD i ⟨0, 0⟩).Yield ≤
      ((rowSums getY backgrounds baseline grid).getD
        (maxRow getY backgrounds baseline grid) ⟨0, 0⟩).Yield) ∧
    ((grid.headD []).length ≠ 0 →
      ∀ j, j < (colSums getY backgrounds baseline grid).length →
      ((colSums getY backgrounds baseline grid).getD j ⟨0, 0⟩).Yield ≤
      ((colSums getY backgrounds baseline grid).getD
        (maxCol getY backgrounds baseline grid) ⟨0, 0⟩).Yield) ∧
    (hasRxFactor (rateFactors doSyst freeSysts
        (maxRow getY backgrounds baseline grid)
        (maxCol getY backgrounds baseline grid) irow icol bin bkg) = true ↔
      icol ≠ maxCol getY backgrounds baseline grid) ∧
    (hasRyFactor (rateFactors doSyst freeSysts
        (maxRow getY backgrounds baseline grid)
        (maxCol getY backgrounds baseline grid) irow icol bin bkg) = true ↔
      irow ≠ maxRow getY backgrounds baseline grid) ∧
    hasRxFactor (rateFactors doSyst freeSysts
      (maxRow getY backgrounds baseline grid)
      (maxCol getY backgrounds baseline grid)
      (maxRow getY backgrounds baseline grid)
      (maxCol getY backgrounds baseline grid) bin bkg) = false ∧
    hasRyFactor (rateFactors doSyst freeSysts
      (maxRow getY backgrounds baseline grid)
      (maxCol getY backgrounds baseline grid)
      (maxRow getY backgrounds baseline grid)
      (maxCol getY backgrounds baseline grid) bin bkg) = false := by
  refine ⟨?_, ?_, hasRx_iff _ _ _ _ _ _ _ _, hasRy_iff _ _ _ _ _ _ _ _,
    ?_, ?_⟩
  · intro i hi
    have hne : (rowSums getY backgrounds baseline grid).map
        GammaParams.Yield ≠ [] := by
      simp only [rowSums, ne_eq, List.map_eq_nil_iff]
      exact hrow
    have hmax_lt : maxIdx ((rowSums getY backgrounds baseline grid).map
        GammaParams.Yield) < (rowSums getY backgrounds baseline grid).length := by
      have := maxIdx_lt_length _ hne
      simpa using this
    have h1 := maxIdx_le _ hne i (by simpa using hi)
    rw [getD_map_yield _ i hi, getD_map_yield _ _ hmax_lt] at h1
    exact h1
  · intro hcol j hj
    have hne : (colSums getY backgrounds baseline grid).map
        GammaParams.Yield ≠ [] := by
      simp only [colSums, ne_eq, List.map_eq_nil_iff, List.map_eq_nil_iff,
        List.range_eq_nil]
      exact hcol
    have hmax_lt : maxIdx ((colSums getY backgrounds baseline grid).map
        GammaParams.Yield) < (colSums getY backgrounds baseline grid).length := by
      have := maxIdx_lt_length _ hne
      simpa using this
    have h1 := maxIdx_le _ hne j (by simpa using hj)
    rw [getD_map_yield _ j hj, getD_map_yield _ _ hmax_lt] at h1
    exact h1
  · rw [Bool.eq_false_iff]
    intro hb
    exact absurd ((hasRx_iff _ _ _ _ _ _ _ _).mp hb) (by simp)
  · rw [Bool.eq_false_iff]
    intro hb
    exact absurd ((hasRy_iff _ _ _ _ _ _ _ _).mp hb) (by simp)

/-- Witness for C6 at the 2×2 scenario grid of spec §8. -/
theorem C6_abcd_reference_cell_witness :
    wGrid ≠ [] ∧
    (∀ i, i < (rowSums wGridYield [wProcZeros] "base" wGrid).length →
      ((rowSums wGridYield [wProcZeros] "base" wGrid).getD i ⟨0, 0⟩).Yield ≤
      ((rowSums wGridYield [wProcZeros] "base" wGrid).getD
        (maxRow wGridYield [wProcZeros] "base" wGrid) ⟨0, 0⟩).Yield) ∧
    hasRxFactor (rateFactors true []
      (maxRow wGridYield [wProcZeros] "base" wGrid)
      (maxCol wGridYield [wProcZeros] "base" wGrid)
      (maxRow wGridYield [wProcZeros] "base" wGrid)
      (maxCol wGridYield [wProcZeros] "base" wGrid) wBin wProcZeros) = false ∧
    hasRyFactor (rateFactors true []
      (maxRow wGridYield [wProcZeros] "base" wGrid)
      (maxCol wGridYield [wProcZeros] "base" wGrid)
      (maxRow wGridYield [wProcZeros] "base" wGrid)
      (maxCol wGridYield [wProcZeros] "base" wGrid) wBin wProcZeros) = false :=
  ⟨by decide,
    (C6_abcd_reference_cell wGridYield [wProcZeros] "base" wGrid true [] 0 0
      wBin wProcZeros (by decide)).1,
    (C6_abcd_reference_cell wGridYield [wProcZeros] "base" wGrid true [] 0 0
      wBin wProcZeros (by decide)).2.2.2.2.1,
    (C6_abcd_reference_cell wGridYield [wProcZeros] "base" wGrid true [] 0 0
      wBin wProcZeros (by decide)).2.2.2.2.2⟩

theorem applyEntry_nil (blocks : List (List (List Bin)))
    (atofQ : String → ℚ) (cur : FreeSystematic) (line : List String) :
    applyEntry blocks atofQ [] cur line = cur := by
  unfold applyEntry
  generalize allBins blocks = bs
  induction bs generalizing cur with
  | nil => rfl
  | cons b rest ih =>
    rw [List.foldl_cons]
    have hstep : (if stripSpaceTab (line.getD 0 "") = b.name then
        List.foldl (fun c prc =>
          c.setStrength b prc (atofQ (line.getD 1 ""))) cur []
      else cur) = cur := by
      split <;> rfl
    rw [hstep, ih cur]

theorem readSystLoop_no_processes (blocks : List (List (List Bin)))
    (allPrc : List Process) (atofQ : String → ℚ) :
    ∀ (ws : List (List String)) (st : SystState),
      (∀ w ∈ ws, w.getD 0 "" ≠ "PROCESSES") →
      st.processList = [] → st.current.entries = [] →
      (∀ f ∈ st.acc, f.entries = []) →
      ∀ fs, readSystLoop blocks allPrc atofQ ws st = .ok fs →
      ∀ f ∈ fs, f.entries = [] := by
  intro ws
  induction ws with
  | nil =>
    intro st _ _ hcur hacc fs hok f hf
    simp only [readSystLoop] at hok
    by_cases hr : st.ready = true
    · rw [if_pos hr] at hok
      injection hok with hok
      subst hok
      rcases List.mem_append.mp hf with h1 | h2
      · exact hacc f h1
      · simp at h2
        subst h2
        exact hcur
    · rw [if_neg hr] at hok
      injection hok with hok
      subst hok
      exact hacc f hf
  | cons line rest ih =>
    intro st hproc hpl hcur hacc fs hok f hf
    simp only [readSystLoop] at hok
    by_cases hlen : line.length < 2
    · rw [if_pos hlen] at hok
      cases hok
    · rw [if_neg hlen] at hok
      have hrest : ∀ w ∈ rest, w.getD 0 "" ≠ "PROCESSES" :=
        fun w hw => hproc w (List.mem_cons_of_mem line hw)
      by_cases hsys : line.getD 0 "" = "SYSTEMATIC"
      · rw [if_pos hsys] at hok
        refine ih _ hrest ?_ ?_ ?_ fs hok f hf
        · exact hpl
        · rfl
        · intro g hg
          by_cases hr : st.ready = true
          · rw [if_pos hr] at hg
            rcases List.mem_append.mp hg with h1 | h2
            · exact hacc g h1
            · simp at h2
              subst h2
              exact hcur
          · rw [if_neg hr] at hg
            exact hacc g hg
      · rw [if_neg hsys] at hok
        have hnp : ¬line.getD 0 "" = "PROCESSES" :=
          hproc line (List.mem_cons_self line rest)
        rw [if_neg hnp] at hok
        refine ih _ hrest ?_ ?_ ?_ fs hok f hf
        · exact hpl
        · show (applyEntry blocks atofQ st.processList st.current
            line).entries = []
          rw [hpl, applyEntry_nil]
          exact hcur
        · exact hacc

/-- Claim C7 (amended): an entry line that follows a `SYSTEMATIC` header
but is not preceded by any `PROCESSES` line applies its strength to *no*
process: the process selection starts out empty (a cleared copy of all
backgrounds plus signal) and only a `PROCESSES` line populates it, so in
a configuration with no `PROCESSES` line every parsed systematic has an
empty strength table. -/
theorem C7_default_process_selection (blocks : List (List (List Bin)))
    (backgrounds : List Process) (signal : Process) (atofQ : String → ℚ)
    (fileLines : List String)
    (hproc : ∀ w ∈ systWords fileLines, w.getD 0 "" ≠ "PROCESSES")
    (fs : List FreeSystematic)
    (hok : readSystematicsFile blocks backgrounds signal atofQ fileLines =
      .ok fs) :
    ∀ f ∈ fs, f.entries = [] := by
  exact readSystLoop_no_processes blocks (backgrounds ++ [signal]) atofQ
    (systWords fileLines) ⟨[], ⟨"BADBADBADBADBADBADBADBADBAD", []⟩, false, []⟩
    hproc rfl rfl (by intro f hf; cases hf) fs hok

/-- Claim C7 counterexample to the claim as stated: parsing a configuration
whose entry line `bin1 0.025` follows `SYSTEMATIC lumi` with no
`PROCESSES` line yields a `lumi` systematic whose strength table is
empty — the strength is applied to no background and not to the signal,
rather than to all backgrounds plus the signal. -/
theorem C7_counterexample :
    (readSystematicsFile wBlocks [wProcZeros] wProcSig (fun _ => 1 / 40)
        ["SYSTEMATIC lumi", "bin1 0.025"]).toOption.map
      (fun fs => fs.map (fun f => (f.name, f.entries.length))) =
      some [("lumi", 0)] ∧
    ((readSystematicsFile wBlocks [wProcZeros] wProcSig (fun _ => 1 / 40)
        ["SYSTEMATIC lumi", "bin1 0.025"]).toOption.getD []).all
      (fun f => !(f.hasEntry ⟨"bin1", "c1", [], true⟩ wProcZeros) &&
                !(f.hasEntry ⟨"bin1", "c1", [], true⟩ wProcSig)) = true := by
  constructor
  · rfl
  · rfl

/-- Witness for the amended C7 on the same concrete configuration. -/
theorem C7_default_process_selection_witness :
    (∀ w ∈ systWords ["SYSTEMATIC lumi", "bin1 0.025"],
      w.getD 0 "" ≠ "PROCESSES") ∧
    ∀ f ∈ ([⟨"lumi", []⟩] : List FreeSystematic), f.entries = [] :=
  ⟨by decide,
    C7_default_process_selection wBlocks [wProcZeros] wProcSig
      (fun _ => 1 / 40) ["SYSTEMATIC lumi", "bin1 0.025"] (by decide)
      [⟨"lumi", []⟩] rfl⟩

theorem readSystLoop_error (blocks : List (List (List Bin)))
    (allPrc : List Process) (atofQ : String → ℚ) :
    ∀ (ws : List (List String)) (st : SystState),
      (∃ w ∈ ws, w.length < 2) →
      ∃ msg, readSystLoop blocks allPrc atofQ ws st = .error msg := by
  intro ws
  induction ws with
  | nil =>
    intro st hbad
    simp at hbad
  | cons line rest ih =>
    intro st hbad
    by_cases hlen : line.length < 2
    · exact ⟨"Bad systematics line: " ++ String.join line,
        by simp [readSystLoop, hlen]⟩
    · have hbad' : ∃ w ∈ rest, w.length < 2 := by
        obtain ⟨w, hw, hwl⟩ := hbad
        rcases List.mem_cons.mp hw with h1 | h2
        · exact absurd (h1 ▸ hwl) hlen
        · exact ⟨w, h2, hwl⟩
      simp only [readSystLoop, if_neg hlen]
      by_cases hsys : line.getD 0 "" = "SYSTEMATIC"
      · rw [if_pos hsys]
        exact ih _ hbad'
      · rw [if_neg hsys]
        by_cases hpr : line.getD 0 "" = "PROCESSES"
        · rw [if_pos hpr]
          exact ih _ hbad'
        · rw [if_neg hpr]
          exact ih _ hbad'

/-- Claim C8: `ReadSystematicsFile` raises a fatal error whenever some
configuration line is, after comment and whitespace cleaning, non-empty
yet tokenizes to fewer than two words; such a line is never skipped or
treated as a valid entry. -/
theorem C8_malformed_line_fatal (blocks : List (List (List Bin)))
    (backgrounds : List Process) (signal : Process) (atofQ : String → ℚ)
    (fileLines : List String)
    (hbad : ∃ l ∈ fileLines, cleanLine l ≠ "" ∧
      (tokenize (cleanLine l)).length < 2) :
    ∃ msg, readSystematicsFile blocks backgrounds signal atofQ fileLines =
      .error msg := by
  obtain ⟨l, hl, hne, hlen⟩ := hbad
  apply readSystLoop_error
  refine ⟨tokenize (cleanLine l), ?_, hlen⟩
  unfold systWords
  apply List.mem_map_of_mem
  rw [List.mem_filter]
  exact ⟨List.mem_map_of_mem _ hl, by simpa using hne⟩

/-- Witness for C8 on a configuration with a one-word line. -/
theorem C8_malformed_line_fatal_witness :
    (∃ l ∈ ["SYSTEMATIC lumi", "oops"], cleanLine l ≠ "" ∧
      (tokenize (cleanLine l)).length < 2) ∧
    ∃ msg, readSystematicsFile wBlocks [wProcZeros] wProcSig (fun _ => 0)
      ["SYSTEMATIC lumi", "oops"] = .error msg :=
  ⟨by decide,
    C8_malformed_line_fatal wBlocks [wProcZeros] wProcSig (fun _ => 0)
      ["SYSTEMATIC lumi", "oops"] (by decide)⟩

/-- Claim C9: each policy setter invalidates the workspace exactly when the
new value differs from the stored one (a call with the current value
leaves the state unchanged), and `WriteToFile` performs a full rebuild
via `UpdateWorkspace` exactly when the workspace is invalid, after which
the workspace is valid. -/
theorem C9_lazy_rebuild (g : WGState) (l : ℚ) (b : Bool) (n : ℕ) :
    (setLuminosity g g.luminosity = g) ∧
    (l ≠ g.luminosity →
      setLuminosity g l = { g with luminosity := l, wIsValid := false }) ∧
    (setDoSystematics g g.doSystematics = g) ∧
    (b ≠ g.doSystematics →
      setDoSystematics g b = { g with doSystematics := b, wIsValid := false }) ∧
    (setDoDilepton g g.doDilepton = g) ∧
    (b ≠ g.doDilepton →
      setDoDilepton g b = { g with doDilepton := b, wIsValid := false }) ∧
    (setKappaCorrected g g.doMcKappaCorrection = g) ∧
    (b ≠ g.doMcKappaCorrection →
      setKappaCorrected g b =
        { g with doMcKappaCorrection := b, wIsValid := false }) ∧
    (setToyNum g g.toyNum = g) ∧
    (n ≠ g.toyNum →
      setToyNum g n = { g with toyNum := n, wIsValid := false }) ∧
    (writeToFile g).wIsValid = true ∧
    (writeToFile g).rebuildCount =
      g.rebuildCount + (if g.wIsValid then 0 else 1) ∧
    (g.wIsValid = true → writeToFile g = g) := by
  refine ⟨?_, ?_, ?_, ?_, ?_, ?_, ?_, ?_, ?_, ?_, ?_, ?_, ?_⟩
  · simp [setLuminosity]
  · intro h; simp only [setLuminosity]; rw [if_pos h]
  · simp [setDoSystematics]
  · intro h; simp only [setDoSystematics]; rw [if_pos h]
  · simp [setDoDilepton]
  · intro h; simp only [setDoDilepton]; rw [if_pos h]
  · simp [setKappaCorrected]
  · intro h; simp only [setKappaCorrected]; rw [if_pos (Ne.symm h)]
  · simp [setToyNum]
  · intro h; simp only [setToyNum]; rw [if_pos (Ne.symm h)]
  · by_cases hv : g.wIsValid <;> simp [writeToFile, updateWorkspace, hv]
  · by_cases hv : g.wIsValid <;> simp [writeToFile, updateWorkspace, hv]
  · intro hv; simp [writeToFile, hv]

/-- Witness for C9 at the freshly constructed generator state. -/
theorem C9_lazy_rebuild_witness :
    ((7 : ℚ) ≠ mkWGState.luminosity) ∧
    setLuminosity mkWGState 7 =
      { mkWGState with luminosity := 7, wIsValid := false } ∧
    (writeToFile mkWGState).wIsValid = true ∧
    (writeToFile mkWGState).rebuildCount =
      mkWGState.rebuildCount + (if mkWGState.wIsValid then 0 else 1) :=
  ⟨by decide,
    (C9_lazy_rebuild mkWGState 7 false 3).2.1 (by decide),
    (C9_lazy_rebuild mkWGState 7 false 3).2.2.2.2.2.2.2.2.2.2.1,
    (C9_lazy_rebuild mkWGState 7 false 3).2.2.2.2.2.2.2.2.2.2.2.1⟩

end RA4
